import Mathlib

/-!
Verification of the fairyfishnet worker client (`fairyfishnet.py`).

This file gives a shallow embedding, in Lean 4, of the pure computational
core of the fairyfishnet distributed analysis client: the UCI `info`-line
parser and accumulator of `go`, the effective-variant computation
`modded_variant`, the per-job dispatch `Worker.work`, the analysis loop
`Worker.analysis`, the engine-died recovery path of `Worker.run_inner`,
the HTTP response classification (including the update-required escape),
the worker-pool sizing of `cmd_run`, and the backoff generator
`start_backoff`.  Python dictionaries are embedded as association lists,
fallible Python evaluation (IndexError, KeyError, ValueError, TypeError)
as `Except`, engine I/O as explicit scripts of received lines, and random
draws as explicit real-valued streams.
-/

/-- Python runtime errors that the embedded code can raise. -/
inductive PyErr where
  | indexError
  | keyError
  | valueError
  | typeError
  deriving DecidableEq, Repr

deriving instance DecidableEq for Except

/-- Decides whether the character list `needle` is a leading segment of `hay`
(used to embed Python substring containment). -/
def charsLeadWith : List Char → List Char → Bool
  | [], _ => true
  | _ :: _, [] => false
  | a :: as, b :: bs => a == b && charsLeadWith as bs

/-- Decides whether `needle` occurs contiguously inside `hay`. -/
def charsContain (needle : List Char) : List Char → Bool
  | [] => charsLeadWith needle []
  | b :: bs => charsLeadWith needle (b :: bs) || charsContain needle bs

/-- Embeds the Python expression `needle in hay` on strings
(contiguous substring containment). -/
def pyInStr (needle hay : String) : Bool :=
  charsContain needle.toList hay.toList

/-- Embeds Python `lst[i]`: the element at index `i`, or `IndexError`. -/
def pyListGet {α : Type} (l : List α) (i : Nat) : Except PyErr α :=
  match l[i]? with
  | some a => .ok a
  | none => .error .indexError

/-- Splits a character list at every occurrence of the separator character,
keeping empty pieces (the semantics of Python `s.split(sep)` for a one
character separator). -/
def splitOnChar (c : Char) : List Char → List (List Char)
  | [] => [[]]
  | x :: xs =>
    if x = c then [] :: splitOnChar c xs
    else
      match splitOnChar c xs with
      | g :: gs => (x :: g) :: gs
      | [] => [[x]]

/-- Embeds Python `s.split(sep)` for a one-character separator. -/
def pySplitOnChar (s : String) (c : Char) : List String :=
  (splitOnChar c s.toList).map (fun g => String.mk g)

/-- Accumulating worker for whitespace splitting: groups of non-whitespace
characters, whitespace runs discarded. -/
def wsSplitAux : List Char → List Char → List (List Char)
  | acc, [] => if acc = [] then [] else [acc.reverse]
  | acc, x :: xs =>
    if x.isWhitespace then
      if acc = [] then wsSplitAux [] xs else acc.reverse :: wsSplitAux [] xs
    else wsSplitAux (x :: acc) xs

/-- Embeds Python `s.split()` (no separator): split on whitespace runs,
discarding empty pieces. -/
def pySplitWs (s : String) : List String :=
  (wsSplitAux [] s.toList).map (fun g => String.mk g)

/-- Removes leading and trailing whitespace from a character list. -/
def trimChars (cs : List Char) : List Char :=
  ((cs.dropWhile Char.isWhitespace).reverse.dropWhile Char.isWhitespace).reverse

/-- Embeds `file_of(piece, rank)` from `fairyfishnet.py`: the 0-based file of
the first occurrence of `piece` in the rank string (counting a digit `d` as
`d` squares and any other character as one square), or `-1` if absent. -/
def file_of (piece : Char) (rank : String) : Int :=
  match rank.toList.findIdx? (fun p => p = piece) with
  | some pos =>
      (((rank.toList.take pos).map
        (fun p => if p.isDigit then ((p.toNat - '0'.toNat : Nat) : Int) else 1)).sum)
  | none => -1

/-- Embeds `modded_variant(variant, chess960, initial_fen)` from
`fairyfishnet.py`.  For a non-chess960 capablanca/capahouse game with a
nonempty initial FEN it inspects the FEN fields: when both kings start on
the e-file with castling rights it returns the embassy form; otherwise the
variant is returned unchanged.  List indexing that would raise in Python
(too few FEN fields or ranks) is an `Except.error`; the branching mirrors
Python's short-circuit evaluation order. -/
def modded_variant (variant : String) (chess960 : Bool) (initial_fen : String) :
    Except PyErr String :=
  if chess960 = false ∧ (variant = "capablanca" ∨ variant = "capahouse") ∧
      initial_fen ≠ "" then
    match pyListGet (pySplitWs initial_fen) 0 with
    | .error e => .error e
    | .ok part0 =>
      match pyListGet (pySplitWs initial_fen) 2 with
      | .error e => .error e
      | .ok part2 =>
        if part2 ≠ "-" ∧ (pyInStr "K" part2 = true ∨ pyInStr "Q" part2 = true) then
          match pyListGet (pySplitOnChar part0 '/') 7 with
          | .error e => .error e
          | .ok rank7 =>
            if file_of 'K' rank7 = 4 ∧
                (pyInStr "k" part2 = true ∨ pyInStr "q" part2 = true) then
              match pyListGet (pySplitOnChar part0 '/') 0 with
              | .error e => .error e
              | .ok rank0 =>
                if file_of 'k' rank0 = 4 then
                  .ok (if pyInStr "house" variant then "embassyhouse" else "embassy")
                else .ok variant
            else .ok variant
        else .ok variant
  else .ok variant

/-- Every successful result of `modded_variant` is the input variant itself or
one of the two embassy forms. -/
theorem modded_variant_ok_cases (v : String) (c : Bool) (f : String) (r : String)
    (h : modded_variant v c f = .ok r) :
    r = v ∨ r = "embassy" ∨ r = "embassyhouse" := by
  unfold modded_variant at h
  split at h
  · split at h
    · exact absurd h (by simp)
    · split at h
      · exact absurd h (by simp)
      · split at h
        · split at h
          · exact absurd h (by simp)
          · split at h
            · split at h
              · exact absurd h (by simp)
              · split at h
                · split at h
                  · right; right; simpa using h.symm
                  · right; left; simpa using h.symm
                · left; simpa using h.symm
            · left; simpa using h.symm
        · left; simpa using h.symm
  · left; simpa using h.symm

/-- The variant "embassy" is a fixed point of `modded_variant`. -/
theorem modded_variant_embassy (c : Bool) (f : String) :
    modded_variant "embassy" c f = .ok "embassy" := by
  unfold modded_variant
  rw [if_neg]
  rintro ⟨-, h, -⟩
  rcases h with h | h <;> exact absurd h (by decide)

/-- The variant "embassyhouse" is a fixed point of `modded_variant`. -/
theorem modded_variant_embassyhouse (c : Bool) (f : String) :
    modded_variant "embassyhouse" c f = .ok "embassyhouse" := by
  unfold modded_variant
  rw [if_neg]
  rintro ⟨-, h, -⟩
  rcases h with h | h <;> exact absurd h (by decide)

/-- C9: the effective-variant computation is idempotent: running
`modded_variant` again on its own result (with the same chess960 flag and
initial FEN, and with a Python exception propagating through the composition)
returns the same result. -/
theorem C9_modded_variant_idempotent (v : String) (c : Bool) (f : String) :
    (modded_variant v c f).bind (fun v2 => modded_variant v2 c f) =
      modded_variant v c f := by
  cases hm : modded_variant v c f with
  | error e => rfl
  | ok r =>
    rcases modded_variant_ok_cases v c f r hm with h | h | h
    · subst h
      simpa [Except.bind] using hm
    · subst h
      simpa [Except.bind] using modded_variant_embassy c f
    · subst h
      simpa [Except.bind] using modded_variant_embassyhouse c f

/-- One score dictionary as built by the parser in `go`: the key is the score
kind ("cp" or "mate"), plus the optional lowerbound/upperbound flag keys
(a missing flag key and a false flag are observationally equal in the
source, which only ever stores the value True). -/
structure ScoreD where
  kind : String
  value : Int
  lowerbound : Bool
  upperbound : Bool
  deriving DecidableEq, Repr

/-- Values stored in the `info` dictionary of `go`. -/
inductive PyVal where
  | vnone
  | vint (n : Int)
  | vstr (s : String)
  | vscore (d : ScoreD)
  deriving DecidableEq, Repr

/-- The `info` dictionary of `go`, embedded as an insertion-ordered
association list.  Keys are `Option String` because the Python code can use
`None` as a dictionary key (when a value token arrives before any parameter
keyword). -/
abbrev Info : Type := List (Option String × PyVal)

/-- Dictionary lookup: `d[k]` as an `Option`. -/
def dget (d : Info) (k : Option String) : Option PyVal :=
  (d.find? (fun kv => kv.1 == k)).map (fun kv => kv.2)

/-- Dictionary assignment `d[k] = v`: replaces in place, or appends
(Python dictionaries preserve insertion order). -/
def dset (d : Info) (k : Option String) (v : PyVal) : Info :=
  if d.any (fun kv => kv.1 == k) then
    d.map (fun kv => if kv.1 == k then (k, v) else kv)
  else
    d ++ [(k, v)]

/-- Dictionary removal `d.pop(k, None)`. -/
def dpop (d : Info) (k : Option String) : Info :=
  d.filter (fun kv => kv.1 != k)


/-- Mapping the in-place update over a list leaves lookups of other keys unchanged. -/
theorem dget_map_set (d : Info) (k k2 : Option String) (v : PyVal) (h : k ≠ k2) :
    dget (d.map (fun kv => if kv.1 == k then (k, v) else kv)) k2 = dget d k2 := by
  induction d with
  | nil => rfl
  | cons a rest ih =>
    simp only [List.map_cons]
    by_cases ha : a.1 = k
    · have hrw : (if (a.1 == k) = true then (k, v) else a) = (k, v) := by simp [ha]
      rw [hrw]
      simp only [dget, List.find?]
      have h2 : ((k, v).1 == k2) = false := by simp [h]
      have h3 : (a.1 == k2) = false := by simp [ha, h]
      rw [h2, h3]
      exact ih
    · have hrw : (if (a.1 == k) = true then (k, v) else a) = a := by simp [ha]
      rw [hrw]
      simp only [dget, List.find?]
      cases hb : (a.1 == k2) with
      | true => rfl
      | false => exact ih

theorem dget_append_single_ne (d : Info) (k k2 : Option String) (v : PyVal) (h : k ≠ k2) :
    dget (d ++ [(k, v)]) k2 = dget d k2 := by
  induction d with
  | nil =>
    have h2 : (k == k2) = false := by simp [h]
    simp [dget, List.find?, h2]
  | cons a rest ih =>
    simp only [List.cons_append, dget, List.find?]
    cases hb : (a.1 == k2) with
    | true => rfl
    | false => exact ih

theorem dget_dset_ne (d : Info) (k k2 : Option String) (v : PyVal) (h : k ≠ k2) :
    dget (dset d k v) k2 = dget d k2 := by
  unfold dset
  split
  · exact dget_map_set d k k2 v h
  · exact dget_append_single_ne d k k2 v h

theorem dget_dset_self (d : Info) (k : Option String) (v : PyVal) :
    dget (dset d k v) k = some v := by
  unfold dset
  split
  · rename_i hany
    induction d with
    | nil => simp at hany
    | cons a rest ih =>
      simp only [List.map_cons]
      by_cases ha : a.1 = k
      · have hrw : (if (a.1 == k) = true then (k, v) else a) = (k, v) := by simp [ha]
        rw [hrw]
        simp [dget, List.find?]
      · have hrw : (if (a.1 == k) = true then (k, v) else a) = a := by simp [ha]
        rw [hrw]
        simp only [List.any_cons, Bool.or_eq_true, beq_iff_eq, ha, false_or] at hany
        simp only [dget, List.find?]
        have h3 : (a.1 == k) = false := by simp [ha]
        rw [h3]
        exact ih (by simpa using hany)
  · induction d with
    | nil => simp [dget, List.find?]
    | cons a rest ih =>
      rename_i hany
      simp only [List.any_cons, Bool.or_eq_true, beq_iff_eq, not_or] at hany
      simp only [List.cons_append, dget, List.find?]
      have h3 : (a.1 == k) = false := by simp [hany.1]
      rw [h3]
      exact ih (by simp [hany.2])

theorem dget_dpop_ne (d : Info) (k k2 : Option String) (h : k ≠ k2) :
    dget (dpop d k) k2 = dget d k2 := by
  unfold dpop
  induction d with
  | nil => rfl
  | cons a rest ih =>
    by_cases ha : a.1 = k
    · have hf : (a.1 != k) = false := by simp [ha]
      have h3 : (a.1 == k2) = false := by simp [ha, h]
      simp only [List.filter, hf, dget, List.find?, h3]
      exact ih
    · have hf : (a.1 != k) = true := by simp [ha]
      simp only [List.filter, hf, dget, List.find?]
      cases hb : (a.1 == k2) with
      | true => rfl
      | false => exact ih

/-- Numeric value of a list of decimal digit characters. -/
def digitsToNat (ds : List Char) : Nat :=
  ds.foldl (fun a c => a * 10 + (c.toNat - '0'.toNat)) 0

/-- Embeds Python `int(token)`: optional surrounding whitespace, an optional
sign, then decimal digits; anything else raises ValueError.  (Python's digit
separators and non-ASCII digits are not modelled; no engine emits them.) -/
def pyInt (t : String) : Except PyErr Int :=
  match trimChars t.toList with
  | [] => .error .valueError
  | '-' :: ds =>
      if ds ≠ [] ∧ ds.all Char.isDigit then .ok (-(digitsToNat ds : Int))
      else .error .valueError
  | '+' :: ds =>
      if ds ≠ [] ∧ ds.all Char.isDigit then .ok ((digitsToNat ds : Int))
      else .error .valueError
  | ds =>
      if ds.all Char.isDigit then .ok ((digitsToNat ds : Int))
      else .error .valueError

/-- The integer-valued parameters of the `info` parser in `go`
(`fairyfishnet.py`, the branch that stores `int(token)`). -/
def INT_PARAMS : List String :=
  ["depth", "seldepth", "time", "nodes", "currmovenumber",
   "hashfull", "nps", "tbhits", "cpuload", "multipv"]

/-- The parameter keywords recognised by the `info` parser in `go` other than
`score` and `pv`, which have dedicated branches. -/
def PARAM_KEYWORDS : List String :=
  ["depth", "seldepth", "time", "nodes", "multipv",
   "currmove", "currmovenumber",
   "hashfull", "nps", "tbhits", "cpuload",
   "refutation", "currline", "string"]

/-- Embeds `info.get("multipv", 1) == 1`: the stored multipv (defaulting to 1
when absent) compared with the integer 1; a non-integer stored value compares
unequal in Python without raising. -/
def multipvIsOne (info : Info) : Bool :=
  match dget info (some "multipv") with
  | none => true
  | some (.vint n) => n == 1
  | some _ => false

/-- Embeds the Python append idiom of the parser: `info[k] += " " + token` when
the key is present (a TypeError if the stored value is not a string, as in
Python), `info[k] = token` otherwise. -/
def strAppendAt (info : Info) (k : Option String) (token : String) :
    Except PyErr Info :=
  match dget info k with
  | some (.vstr s) => .ok (dset info k (.vstr (s ++ " " ++ token)))
  | some _ => .error .typeError
  | none => .ok (dset info k (.vstr token))

/-- The per-line mutable state of the `info` parser in `go`: the accumulated
info dictionary and the five per-line locals. -/
structure LineState where
  info : Info
  score_kind : Option String
  score_value : Option Int
  lowerbound : Bool
  upperbound : Bool
  current_parameter : Option String
  deriving DecidableEq, Repr

/-- One token step of the `info` parser in `go` (`fairyfishnet.py` lines
552-594).  The first four branches are driven by the token, the rest by
`current_parameter`, exactly as the Python `if`/`elif` chain. -/
def infoTokenStep (st : LineState) (token : String) : Except PyErr LineState :=
  if st.current_parameter = some "string" then
    match strAppendAt st.info (some "string") token with
    | .error e => .error e
    | .ok i => .ok { st with info := i }
  else if token = "score" then
    .ok { st with current_parameter := some "score" }
  else if token = "pv" then
    let info1 := if multipvIsOne st.info then dpop st.info (some "pv") else st.info
    .ok { st with current_parameter := some "pv", info := info1 }
  else if token ∈ PARAM_KEYWORDS then
    .ok { st with current_parameter := some token,
                  info := dpop st.info (some token) }
  else
    match st.current_parameter with
    | some cp =>
      if cp ∈ INT_PARAMS then
        match pyInt token with
        | .error e => .error e
        | .ok n => .ok { st with info := dset st.info (some cp) (.vint n) }
      else if cp = "score" then
        if token = "cp" ∨ token = "mate" then
          .ok { st with score_kind := some token, score_value := none }
        else if token = "lowerbound" then
          .ok { st with lowerbound := true }
        else if token = "upperbound" then
          .ok { st with upperbound := true }
        else
          match pyInt token with
          | .error e => .error e
          | .ok n => .ok { st with score_value := some n }
      else if cp ≠ "pv" ∨ multipvIsOne st.info then
        match strAppendAt st.info (some cp) token with
        | .error e => .error e
        | .ok i => .ok { st with info := i }
      else
        .ok st
    | none =>
      match strAppendAt st.info none token with
      | .error e => .error e
      | .ok i => .ok { st with info := i }

/-- Folds `infoTokenStep` over the tokens of one `info` line. -/
def infoLineFold : List String → LineState → Except PyErr LineState
  | [], st => .ok st
  | t :: ts, st =>
    match infoTokenStep st t with
    | .error e => .error e
    | .ok st2 => infoLineFold ts st2

/-- Embeds the set-score epilogue of the `info` parser
(`fairyfishnet.py` lines 596-602): the new score is stored when it is
complete and either carries no bound flag, or no score is stored yet, or the
stored score itself carries a bound flag. -/
def setScoreStep (st : LineState) : Except PyErr Info :=
  match st.score_kind, st.score_value with
  | some k, some v =>
    if st.lowerbound = false ∧ st.upperbound = false then
      .ok (dset st.info (some "score")
        (.vscore ⟨k, v, st.lowerbound, st.upperbound⟩))
    else
      match dget st.info (some "score") with
      | none =>
        .ok (dset st.info (some "score")
          (.vscore ⟨k, v, st.lowerbound, st.upperbound⟩))
      | some (.vscore d) =>
        if d.lowerbound = true ∨ d.upperbound = true then
          .ok (dset st.info (some "score")
            (.vscore ⟨k, v, st.lowerbound, st.upperbound⟩))
        else .ok st.info
      | some _ => .error .typeError
  | _, _ => .ok st.info

/-- Parses one complete `info` line of `go`: token fold, then the set-score
epilogue.  Python splits the argument on single spaces, keeping empty
pieces. -/
def parseInfoLine (arg : String) (info : Info) : Except PyErr Info :=
  match infoLineFold (pySplitOnChar arg ' ') ⟨info, none, none, false, false, none⟩ with
  | .error e => .error e
  | .ok st => setScoreStep st

/-- The initial accumulator of `go`: an info dictionary holding only
`bestmove = None`. -/
def goInitInfo : Info := [(some "bestmove", PyVal.vnone)]

/-- The clock field of a move job, as used by `go` to build the search
command. -/
structure Clock where
  wtime : Int
  btime : Int
  inc : Int
  deriving DecidableEq, Repr

/-- The `position` line sent by `go`. -/
def positionCmd (position : String) (moves : List String) : String :=
  "position fen " ++ position ++ " moves " ++ String.intercalate " " moves

/-- The `go` line sent by `go`, assembled from the optional limits in source
order: movetime, depth, nodes, then the clock (centiseconds scaled by 10,
increment seconds scaled by 1000). -/
def goCmd (movetime depth nodes : Option Int) (clock : Option Clock) : String :=
  let builder : List String := ["go"]
  let builder := builder ++
    (match movetime with
     | some m => ["movetime", toString m]
     | none => [])
  let builder := builder ++
    (match depth with
     | some d => ["depth", toString d]
     | none => [])
  let builder := builder ++
    (match nodes with
     | some n => ["nodes", toString n]
     | none => [])
  let builder := builder ++
    (match clock with
     | some c => ["wtime", toString (c.wtime * 10), "btime", toString (c.btime * 10),
                  "winc", toString (c.inc * 1000), "binc", toString (c.inc * 1000)]
     | none => [])
  String.intercalate " " builder

/-- The receive loop of `go` (`fairyfishnet.py` lines 539-605) over a script
of `(command, argument)` pairs as produced by `recv_uci`.  A `bestmove` line
finalizes and returns the accumulated info (normalizing an empty or `(none)`
token to the initial null); an `info` line updates the accumulator; any other
line is logged and skipped.  An exhausted script (the engine never answered)
yields `none`.  The loop itself sends nothing to the engine. -/
def goLoop : List (String × String) → Info → Except PyErr (Option Info)
  | [], _ => .ok none
  | (command, arg) :: rest, info =>
    if command = "bestmove" then
      match pyListGet (pySplitWs arg) 0 with
      | .error e => .error e
      | .ok bm =>
        if bm ≠ "" ∧ bm ≠ "(none)" then
          .ok (some (dset info (some "bestmove") (.vstr bm)))
        else .ok (some info)
    else if command = "info" then
      match parseInfoLine arg info with
      | .error e => .error e
      | .ok info2 => goLoop rest info2
    else goLoop rest info

/-- One full run of `go`: the lines sent to the engine (the `position` line
and the `go` line; the receive loop contains no send call) together with the
outcome of the receive loop on the given script. -/
def goRun (position : String) (moves : List String)
    (movetime depth nodes : Option Int) (clock : Option Clock)
    (script : List (String × String)) :
    List String × Except PyErr (Option Info) :=
  ([positionCmd position moves, goCmd movetime depth nodes clock],
   goLoop script goInitInfo)

/-- C2 (counterexample): running `go` on a script whose first `info` line
scores mate 0 at multipv 1 completes the normal loop: the mate-0 line is
simply accumulated, no `stop` line is ever sent (the only lines sent are the
`position` and `go` commands), and the run returns at the `bestmove` line.
This refutes the claim that `go` sends `stop` immediately on mate 0. -/
theorem C2_counterexample :
    parseInfoLine "depth 1 multipv 1 score mate 0" goInitInfo =
      .ok [(some "bestmove", .vnone), (some "depth", .vint 1),
           (some "multipv", .vint 1),
           (some "score", .vscore ⟨"mate", 0, false, false⟩)] ∧
    (goRun "4k3/8/8/8/8/8/8/4K3 w - - 0 1" [] none none (some 3500000) none
        [("info", "depth 1 multipv 1 score mate 0"), ("bestmove", "h7h8")]).2 =
      .ok (some [(some "bestmove", .vstr "h7h8"), (some "depth", .vint 1),
                 (some "multipv", .vint 1),
                 (some "score", .vscore ⟨"mate", 0, false, false⟩)]) ∧
    "stop" ∉ (goRun "4k3/8/8/8/8/8/8/4K3 w - - 0 1" [] none none (some 3500000) none
        [("info", "depth 1 multipv 1 score mate 0"), ("bestmove", "h7h8")]).1 ∧
    "isready" ∉ (goRun "4k3/8/8/8/8/8/8/4K3 w - - 0 1" [] none none (some 3500000) none
        [("info", "depth 1 multipv 1 score mate 0"), ("bestmove", "h7h8")]).1 := by
  refine ⟨by decide, by decide, by decide, by decide⟩

/-- C2 (amended): `go` has no mate-0 special case.  The only lines it ever
sends are the initial `position` and `go` commands — in particular never
`stop` or `isready` during the receive loop — and every `info` line,
including one carrying `score mate 0` at `multipv` 1, is handled by the
uniform accumulate-and-continue branch; the run returns only at a `bestmove`
line. -/
theorem C2_go_never_stops :
    (∀ position moves movetime depth nodes clock script,
        (goRun position moves movetime depth nodes clock script).1 =
          [positionCmd position moves, goCmd movetime depth nodes clock]) ∧
    (∀ (info : Info) rest arg,
        goLoop (("info", arg) :: rest) info =
          match parseInfoLine arg info with
          | .error e => .error e
          | .ok info2 => goLoop rest info2) := by
  constructor
  · intro position moves movetime depth nodes clock script
    rfl
  · intro info rest arg
    rfl

/-- C3 (counterexample): an upperbound-flagged score does overwrite an
already-stored (lowerbound-flagged) score.  Starting from the initial info,
the line `score cp 10 lowerbound` stores a bounded score, and the following
line `score cp 20 upperbound` — itself bound-flagged — replaces it. -/
theorem C3_counterexample :
    parseInfoLine "score cp 10 lowerbound" goInitInfo =
      .ok [(some "bestmove", .vnone),
           (some "score", .vscore ⟨"cp", 10, true, false⟩)] ∧
    parseInfoLine "score cp 20 upperbound"
        [(some "bestmove", .vnone), (some "score", .vscore ⟨"cp", 10, true, false⟩)] =
      .ok [(some "bestmove", .vnone),
           (some "score", .vscore ⟨"cp", 20, false, true⟩)] := by
  exact ⟨by decide, by decide⟩

/-- C3 (amended): the score-replacement rule of the parser.  A complete newly
parsed score replaces the stored one iff it carries no bound flag, or no
score is stored yet, or the stored score itself carries a bound flag; in
particular a bound-flagged score never overwrites a stored score that
carries no bound flag. -/
theorem C3_score_replacement_rule :
    (∀ (info : Info) (k : String) (v : Int) (lb ub : Bool) (d : ScoreD),
        dget info (some "score") = some (.vscore d) →
        d.lowerbound = false → d.upperbound = false →
        (lb = true ∨ ub = true) →
        setScoreStep ⟨info, some k, some v, lb, ub, none⟩ = .ok info) ∧
    (∀ (info : Info) (k : String) (v : Int) (lb ub : Bool) (d : ScoreD),
        dget info (some "score") = some (.vscore d) →
        (d.lowerbound = true ∨ d.upperbound = true) →
        setScoreStep ⟨info, some k, some v, lb, ub, none⟩ =
          .ok (dset info (some "score") (.vscore ⟨k, v, lb, ub⟩))) ∧
    (∀ (info : Info) (k : String) (v : Int) (lb ub : Bool),
        dget info (some "score") = none →
        setScoreStep ⟨info, some k, some v, lb, ub, none⟩ =
          .ok (dset info (some "score") (.vscore ⟨k, v, lb, ub⟩))) ∧
    (∀ (info : Info) (k : String) (v : Int),
        setScoreStep ⟨info, some k, some v, false, false, none⟩ =
          .ok (dset info (some "score") (.vscore ⟨k, v, false, false⟩))) := by
  refine ⟨?_, ?_, ?_, ?_⟩
  · intro info k v lb ub d hd hdl hdu hb
    unfold setScoreStep
    have hne : ¬(lb = false ∧ ub = false) := by
      rcases hb with hb | hb <;> subst hb <;> simp
    simp only [hne, if_false, hd, hdl, hdu]
    simp
  · intro info k v lb ub d hd hb
    unfold setScoreStep
    by_cases hflags : lb = false ∧ ub = false
    · simp [hflags.1, hflags.2]
    · simp only [hflags, if_false, hd]
      rcases hb with hb | hb <;> simp [hb]
  · intro info k v lb ub hd
    unfold setScoreStep
    by_cases hflags : lb = false ∧ ub = false
    · simp [hflags.1, hflags.2]
    · simp [hflags, hd]
  · intro info k v
    unfold setScoreStep
    simp

/-- C3 amended, applied at a concrete store: a stored unbounded score
`cp 5` survives a later bound-flagged `cp 7 lowerbound`. -/
theorem C3_score_replacement_rule_witness :
    dget [(some "score", PyVal.vscore ⟨"cp", 5, false, false⟩)] (some "score") =
      some (.vscore ⟨"cp", 5, false, false⟩) ∧
    setScoreStep ⟨[(some "score", PyVal.vscore ⟨"cp", 5, false, false⟩)],
        some "cp", some 7, true, false, none⟩ =
      .ok [(some "score", PyVal.vscore ⟨"cp", 5, false, false⟩)] :=
  ⟨by decide,
   C3_score_replacement_rule.1 [(some "score", PyVal.vscore ⟨"cp", 5, false, false⟩)]
     "cp" 7 true false ⟨"cp", 5, false, false⟩ (by decide) rfl rfl (Or.inl rfl)⟩

/-- One job as held by a worker: the relevant fields of the `work`
sub-dictionary. -/
structure Job where
  workId : String
  workType : String
  deriving DecidableEq, Repr

/-- The plain identification envelope built by `Worker.make_request`:
client version, python version, api key and the engine identification. -/
structure Envelope where
  version : String
  python : String
  apikey : String
  stockfish : List (String × String)
  deriving DecidableEq, Repr

/-- The request body returned by `Worker.work`: the plain envelope on the
acquire path, or a result body produced by the analysis/bestmove executors. -/
inductive WorkBody where
  | plain (env : Envelope)
  | analysisResultBody (env : Envelope)
  | moveResultBody (env : Envelope)
  deriving DecidableEq, Repr

/-- Embeds `Worker.work` (`fairyfishnet.py` lines 900-913): dispatch on the
held job's work type, with the two executors passed as oracles (they drive
the engine); a missing job or an unknown work type falls through to the
acquire path with the plain envelope. -/
def work (env : Envelope) (job : Option Job)
    (analysisRun : Job → WorkBody) (moveRun : Job → WorkBody) :
    String × WorkBody :=
  match job with
  | some j =>
    if j.workType = "analysis" then ("analysis" ++ "/" ++ j.workId, analysisRun j)
    else if j.workType = "move" then ("move" ++ "/" ++ j.workId, moveRun j)
    else ("acquire", .plain env)
  | none => ("acquire", .plain env)

/-- C10: a held job whose work type is neither "analysis" nor "move" is
silently ignored: `Worker.work` does not run an executor and returns the
acquire path with the plain identification envelope. -/
theorem C10_unknown_job_type (env : Envelope) (j : Job)
    (analysisRun moveRun : Job → WorkBody)
    (h1 : j.workType ≠ "analysis") (h2 : j.workType ≠ "move") :
    work env (some j) analysisRun moveRun = ("acquire", .plain env) := by
  simp [work, h1, h2]

/-- C10 applied to a concrete held job of unknown type "puzzle". -/
theorem C10_unknown_job_type_witness :
    ("puzzle" ≠ "analysis" ∧ "puzzle" ≠ "move") ∧
    work ⟨"1.2.3", "3.9.0", "k", []⟩ (some ⟨"j1", "puzzle"⟩)
        (fun _ => .plain ⟨"1.2.3", "3.9.0", "k", []⟩)
        (fun _ => .plain ⟨"1.2.3", "3.9.0", "k", []⟩) =
      ("acquire", .plain ⟨"1.2.3", "3.9.0", "k", []⟩) :=
  ⟨by decide,
   C10_unknown_job_type ⟨"1.2.3", "3.9.0", "k", []⟩ ⟨"j1", "puzzle"⟩ _ _
     (by decide) (by decide)⟩

/-- Appending under `strAppendAt` leaves lookups of other keys unchanged. -/
theorem strAppendAt_dget_ne (info : Info) (k k2 : Option String) (token : String)
    (i : Info) (h : k ≠ k2) (hs : strAppendAt info k token = .ok i) :
    dget i k2 = dget info k2 := by
  unfold strAppendAt at hs
  split at hs
  · simp only [Except.ok.injEq] at hs
    subst hs
    exact dget_dset_ne info k k2 _ h
  · exact absurd hs (by simp)
  · simp only [Except.ok.injEq] at hs
    subst hs
    exact dget_dset_ne info k k2 _ h

/-- One parser token step neither touches the `bestmove` entry nor makes
`bestmove` the current parameter. -/
theorem infoTokenStep_bestmove (st : LineState) (t : String)
    (h : st.current_parameter ≠ some "bestmove") (st2 : LineState)
    (hs : infoTokenStep st t = .ok st2) :
    dget st2.info (some "bestmove") = dget st.info (some "bestmove") ∧
      st2.current_parameter ≠ some "bestmove" := by
  unfold infoTokenStep at hs
  split at hs
  · -- current_parameter = some "string"
    split at hs
    · exact absurd hs (by simp)
    · rename_i i happ
      simp only [Except.ok.injEq] at hs
      subst hs
      refine ⟨?_, h⟩
      exact strAppendAt_dget_ne st.info (some "string") (some "bestmove") t i
        (by decide) happ
  · split at hs
    · -- token = "score"
      simp only [Except.ok.injEq] at hs
      subst hs
      refine ⟨rfl, ?_⟩
      show (some "score" : Option String) ≠ some "bestmove"
      decide
    · split at hs
      · -- token = "pv"
        simp only [Except.ok.injEq] at hs
        subst hs
        constructor
        · show dget (if multipvIsOne st.info = true then dpop st.info (some "pv")
              else st.info) (some "bestmove") = dget st.info (some "bestmove")
          by_cases hm : multipvIsOne st.info = true
          · simp only [hm, if_true]
            exact dget_dpop_ne st.info (some "pv") (some "bestmove") (by decide)
          · simp [hm]
        · show (some "pv" : Option String) ≠ some "bestmove"
          decide
      · split at hs
        · -- token a parameter keyword
          rename_i hkw
          simp only [Except.ok.injEq] at hs
          subst hs
          have ht : t ≠ "bestmove" := by
            intro he
            subst he
            revert hkw
            decide
          constructor
          · exact dget_dpop_ne st.info (some t) (some "bestmove")
              (fun he => ht (Option.some.inj he))
          · show some t ≠ some "bestmove"
            exact fun he => ht (Option.some.inj he)
        · -- driven by current_parameter
          split at hs
          · rename_i cp hcp
            rw [hcp] at h
            split at hs
            · -- integer parameter
              rename_i hint
              split at hs
              · exact absurd hs (by simp)
              · simp only [Except.ok.injEq] at hs
                subst hs
                have hcpne : cp ≠ "bestmove" := by
                  intro he
                  subst he
                  revert hint
                  decide
                refine ⟨?_, ?_⟩
                · exact dget_dset_ne st.info (some cp) (some "bestmove") _
                    (fun he => hcpne (Option.some.inj he))
                · show st.current_parameter ≠ some "bestmove"
                  rw [hcp]
                  exact h
            · split at hs
              · -- cp = "score": the four token sub-branches
                split at hs
                · simp only [Except.ok.injEq] at hs
                  subst hs
                  refine ⟨rfl, ?_⟩
                  show st.current_parameter ≠ some "bestmove"
                  rw [hcp]
                  exact h
                · split at hs
                  · simp only [Except.ok.injEq] at hs
                    subst hs
                    refine ⟨rfl, ?_⟩
                    show st.current_parameter ≠ some "bestmove"
                    rw [hcp]
                    exact h
                  · split at hs
                    · simp only [Except.ok.injEq] at hs
                      subst hs
                      refine ⟨rfl, ?_⟩
                      show st.current_parameter ≠ some "bestmove"
                      rw [hcp]
                      exact h
                    · split at hs
                      · exact absurd hs (by simp)
                      · simp only [Except.ok.injEq] at hs
                        subst hs
                        refine ⟨rfl, ?_⟩
                        show st.current_parameter ≠ some "bestmove"
                        rw [hcp]
                        exact h
              · split at hs
                · -- string append at key cp
                  split at hs
                  · exact absurd hs (by simp)
                  · rename_i i happ
                    simp only [Except.ok.injEq] at hs
                    subst hs
                    refine ⟨?_, ?_⟩
                    · exact strAppendAt_dget_ne st.info (some cp)
                        (some "bestmove") t i h happ
                    · show st.current_parameter ≠ some "bestmove"
                      rw [hcp]
                      exact h
                · simp only [Except.ok.injEq] at hs
                  subst hs
                  refine ⟨rfl, ?_⟩
                  rw [hcp]
                  exact h
          · -- current_parameter = none
            rename_i hcp
            split at hs
            · exact absurd hs (by simp)
            · rename_i i happ
              simp only [Except.ok.injEq] at hs
              subst hs
              refine ⟨?_, ?_⟩
              · exact strAppendAt_dget_ne st.info none (some "bestmove") t i
                  (by decide) happ
              · show st.current_parameter ≠ some "bestmove"
                rw [hcp]
                decide

/-- The token fold preserves the `bestmove` entry and never makes `bestmove`
the current parameter. -/
theorem infoLineFold_bestmove (ts : List String) :
    ∀ (st : LineState), st.current_parameter ≠ some "bestmove" →
      ∀ st2, infoLineFold ts st = .ok st2 →
        dget st2.info (some "bestmove") = dget st.info (some "bestmove") ∧
          st2.current_parameter ≠ some "bestmove" := by
  induction ts with
  | nil =>
    intro st h st2 hs
    simp only [infoLineFold, Except.ok.injEq] at hs
    subst hs
    exact ⟨rfl, h⟩
  | cons t ts ih =>
    intro st h st2 hs
    unfold infoLineFold at hs
    split at hs
    · exact absurd hs (by simp)
    · rename_i stm hstep
      obtain ⟨e1, h1⟩ := infoTokenStep_bestmove st t h stm hstep
      obtain ⟨e2, h2⟩ := ih stm h1 st2 hs
      exact ⟨e2.trans e1, h2⟩

/-- The set-score epilogue leaves the `bestmove` entry unchanged. -/
theorem setScoreStep_bestmove (st : LineState) (i : Info)
    (hs : setScoreStep st = .ok i) :
    dget i (some "bestmove") = dget st.info (some "bestmove") := by
  unfold setScoreStep at hs
  split at hs
  · split at hs
    · simp only [Except.ok.injEq] at hs
      subst hs
      exact dget_dset_ne st.info (some "score") (some "bestmove") _ (by decide)
    · split at hs
      · simp only [Except.ok.injEq] at hs
        subst hs
        exact dget_dset_ne st.info (some "score") (some "bestmove") _ (by decide)
      · split at hs
        · simp only [Except.ok.injEq] at hs
          subst hs
          exact dget_dset_ne st.info (some "score") (some "bestmove") _ (by decide)
        · simp only [Except.ok.injEq] at hs
          subst hs
          rfl
      · exact absurd hs (by simp)
  · simp only [Except.ok.injEq] at hs
    subst hs
    rfl

/-- Parsing a whole `info` line leaves the `bestmove` entry unchanged. -/
theorem parseInfoLine_bestmove (arg : String) (info i : Info)
    (hs : parseInfoLine arg info = .ok i) :
    dget i (some "bestmove") = dget info (some "bestmove") := by
  unfold parseInfoLine at hs
  split at hs
  · exact absurd hs (by simp)
  · rename_i st hfold
    obtain ⟨e1, -⟩ := infoLineFold_bestmove (pySplitOnChar arg ' ')
      ⟨info, none, none, false, false, none⟩
      (show (none : Option String) ≠ some "bestmove" by decide) st hfold
    exact (setScoreStep_bestmove st i hs).trans e1

/-- The good states of the `bestmove` entry: the initial null, or a move
token different from the literal `(none)`. -/
def BmOk (v : Option PyVal) : Prop :=
  v = some .vnone ∨ ∃ s, v = some (.vstr s) ∧ s ≠ "(none)"

/-- The receive loop of `go` keeps the `bestmove` entry good. -/
theorem goLoop_bestmove (script : List (String × String)) :
    ∀ (info : Info), BmOk (dget info (some "bestmove")) →
      ∀ r, goLoop script info = .ok (some r) →
        BmOk (dget r (some "bestmove")) := by
  induction script with
  | nil =>
    intro info hinfo r hs
    exact absurd hs (by simp [goLoop])
  | cons line rest ih =>
    intro info hinfo r hs
    obtain ⟨command, arg⟩ := line
    unfold goLoop at hs
    split at hs
    · split at hs
      · exact absurd hs (by simp)
      · rename_i bm hbm
        split at hs
        · rename_i hne
          simp only [Except.ok.injEq, Option.some.injEq] at hs
          subst hs
          right
          exact ⟨bm, by rw [dget_dset_self], hne.2⟩
        · simp only [Except.ok.injEq, Option.some.injEq] at hs
          subst hs
          exact hinfo
    · split at hs
      · split at hs
        · exact absurd hs (by simp)
        · rename_i info2 hparse
          refine ih info2 ?_ r hs
          rw [parseInfoLine_bestmove arg info info2 hparse]
          exact hinfo
      · exact ih info hinfo r hs

/-- C8: the `bestmove` of the info returned by the receive loop of `go` is
never the literal `(none)`, and a `bestmove` line whose first token is
`(none)` (or, per the guard, an empty token) leaves the accumulated
`bestmove` untouched, so it stays the initial null. -/
theorem C8_bestmove_never_literal_none :
    (∀ (script : List (String × String)) (r : Info),
        goLoop script goInitInfo = .ok (some r) →
          dget r (some "bestmove") ≠ some (.vstr "(none)")) ∧
    (∀ (info : Info) (rest : List (String × String)) (arg bm : String)
        (tks : List String),
        pySplitWs arg = bm :: tks → (bm = "(none)" ∨ bm = "") →
        goLoop (("bestmove", arg) :: rest) info = .ok (some info)) := by
  constructor
  · intro script r hs
    have hgood : BmOk (dget goInitInfo (some "bestmove")) := Or.inl (by decide)
    rcases goLoop_bestmove script goInitInfo hgood r hs with h | ⟨s, hv, hne⟩
    · rw [h]
      simp
    · rw [hv]
      simp only [Option.some.injEq, PyVal.vstr.injEq, ne_eq]
      exact fun he => hne he
  · intro info rest arg bm tks hsplit hbm
    unfold goLoop
    rw [if_pos rfl]
    unfold pyListGet
    rw [hsplit]
    simp only [List.getElem?_cons_zero]
    rw [if_neg]
    rcases hbm with hbm | hbm <;> subst hbm <;> simp

/-- C8 applied at concrete scripts: a run answering `bestmove (none)` keeps
the accumulated bestmove null, and a normal run never stores `(none)`. -/
theorem C8_bestmove_never_literal_none_witness :
    (pySplitWs "(none)" = ["(none)"] ∧
      goLoop [("bestmove", "(none)")] goInitInfo = .ok (some goInitInfo)) ∧
    (goLoop [("bestmove", "e2e4")] goInitInfo =
        .ok (some [(some "bestmove", PyVal.vstr "e2e4")]) ∧
      dget [(some "bestmove", PyVal.vstr "e2e4")] (some "bestmove") ≠
        some (.vstr "(none)")) :=
  ⟨⟨by decide,
    C8_bestmove_never_literal_none.2 goInitInfo [] "(none)" "(none)" []
      (by decide) (Or.inl rfl)⟩,
   ⟨by decide,
    C8_bestmove_never_literal_none.1 [("bestmove", "e2e4")]
      [(some "bestmove", PyVal.vstr "e2e4")] (by decide)⟩⟩

/-- One element of the analysis array built by `Worker.analysis`: the skipped
marker or a recorded SearchInfo. -/
inductive AEntry where
  | skipped
  | info (i : Info)
  deriving DecidableEq, Repr

/-- Embeds the per-ply sanity filters of `Worker.analysis` (`fairyfishnet.py`
lines 1021-1026): accessing `part["score"]` raises KeyError when no score was
accumulated (the low-time warning itself has no effect on the result), and an
`nps` of at least 10^8 is dropped as implausible.  The stored score and nps
are integer/score values whenever they come from the `go` parser; other
shapes would raise in Python and are embedded as TypeError. -/
def analysisFilter (part : Info) : Except PyErr Info :=
  match dget part (some "score") with
  | none => .error .keyError
  | some (.vscore d) =>
    match (if d.kind = "mate" then Except.ok () else
            match dget part (some "time") with
            | some (.vint _) => Except.ok ()
            | some _ => Except.error PyErr.typeError
            | none => Except.ok ()) with
    | .error e => .error e
    | .ok _ =>
      match dget part (some "nps") with
      | some (.vint n) =>
        .ok (if 100000000 ≤ n then dpop part (some "nps") else part)
      | some _ => .error .typeError
      | none => .ok part
  | some _ => .error .typeError

/-- One iteration of the reverse-ply loop of `Worker.analysis`: a skipped ply
records the skipped marker, any other ply records the filtered result of the
ply's search (the search itself is the `go` call, passed as an oracle). -/
def analysisStep (search : Nat → Info) (skip : List Nat) (ply : Nat)
    (acc : List (Option AEntry)) : Except PyErr (List (Option AEntry)) :=
  if ply ∈ skip then .ok (acc.set ply (some .skipped))
  else
    match analysisFilter (search ply) with
    | .error e => .error e
    | .ok part => .ok (acc.set ply (some (.info part)))

/-- The reverse-ply loop of `Worker.analysis` over an explicit list of
plies. -/
def analysisFold (search : Nat → Info) (skip : List Nat) :
    List Nat → List (Option AEntry) → Except PyErr (List (Option AEntry))
  | [], acc => .ok acc
  | p :: ps, acc =>
    match analysisStep search skip p acc with
    | .error e => .error e
    | .ok acc2 => analysisFold search skip ps acc2

/-- Embeds `Worker.analysis` (`fairyfishnet.py` lines 982-1043): the analysis
array starts as `len(moves)+1` sentinels and the loop walks the plies from
`len(moves)` down to 0. -/
def analysisResult (moves : List String) (skip : List Nat)
    (search : Nat → Info) : Except PyErr (List (Option AEntry)) :=
  analysisFold search skip ((List.range (moves.length + 1)).reverse)
    (List.replicate (moves.length + 1) none)

/-- The entry recorded for ply `i` when the filtered search result is `f i`. -/
def entryFor (skip : List Nat) (f : Nat → Info) (i : Nat) : Option AEntry :=
  if i ∈ skip then some .skipped else some (.info (f i))

/-- Element after `List.set` at the written index. -/
theorem set_getElem?_self {α : Type} (l : List α) (i : Nat) (a : α)
    (h : i < l.length) : (l.set i a)[i]? = some a := by
  induction l generalizing i with
  | nil => simp at h
  | cons x xs ih =>
    cases i with
    | zero => simp
    | succ n => simpa using ih n (by simpa using h)

/-- Element after `List.set` at any other index. -/
theorem set_getElem?_ne {α : Type} (l : List α) (i j : Nat) (a : α)
    (h : i ≠ j) : (l.set i a)[j]? = l[j]? := by
  induction l generalizing i j with
  | nil => rfl
  | cons x xs ih =>
    cases i with
    | zero =>
      cases j with
      | zero => exact absurd rfl h
      | succ m => simp
    | succ n =>
      cases j with
      | zero => simp
      | succ m => simpa using ih n m (by omega)

/-- The reverse-ply fold succeeds when every non-skipped ply filters cleanly,
and the final array holds, at every index of the ply list, the recorded entry
for that ply, leaving other indices untouched. -/
theorem analysisFold_ok (search : Nat → Info) (skip : List Nat) (f : Nat → Info)
    (ps : List Nat)
    (hf : ∀ p ∈ ps, p ∉ skip → analysisFilter (search p) = .ok (f p)) :
    ∀ acc : List (Option AEntry), (∀ p ∈ ps, p < acc.length) →
      ∃ acc2, analysisFold search skip ps acc = .ok acc2 ∧
        acc2.length = acc.length ∧
        ∀ i, (acc2[i]?).getD none =
          if i ∈ ps then entryFor skip f i else (acc[i]?).getD none := by
  induction ps with
  | nil =>
    intro acc hlen
    exact ⟨acc, rfl, rfl, fun i => by simp⟩
  | cons p ps ih =>
    intro acc hlen
    have hstep : analysisStep search skip p acc =
        .ok (acc.set p (entryFor skip f p)) := by
      unfold analysisStep entryFor
      by_cases hsk : p ∈ skip
      · simp [hsk]
      · rw [if_neg hsk, if_neg hsk, hf p (by simp) hsk]
    have hlen2 : ∀ q ∈ ps, q < (acc.set p (entryFor skip f p)).length := by
      intro q hq
      rw [List.length_set]
      exact hlen q (by simp [hq])
    obtain ⟨acc2, hfold, hlen3, hchar⟩ :=
      ih (fun q hq hsk => hf q (by simp [hq]) hsk)
        (acc.set p (entryFor skip f p)) hlen2
    refine ⟨acc2, ?_, ?_, ?_⟩
    · unfold analysisFold
      rw [hstep]
      exact hfold
    · rw [hlen3, List.length_set]
    · intro i
      rw [hchar i]
      by_cases hips : i ∈ ps
      · simp [hips]
      · by_cases hip : i = p
        · subst hip
          rw [if_neg hips, if_pos (by simp)]
          rw [set_getElem?_self acc i _ (hlen i (by simp))]
          rfl
        · rw [if_neg hips, if_neg (by simp [hip, hips]),
            set_getElem?_ne acc p i _ (fun he => hip he.symm)]

/-- C1: for an analysis job over `M` move tokens whose non-skipped per-ply
searches all filter cleanly, `Worker.analysis` yields an array of length
`M + 1` in which, for every ply `p` in `0..M`, the entry is the skipped
marker iff `p` is in `skipPositions`, and otherwise is the recorded
SearchInfo of the ply-`p` search. -/
theorem C1_analysis_array (moves : List String) (skip : List Nat)
    (search : Nat → Info) (f : Nat → Info)
    (hf : ∀ p, p ≤ moves.length → p ∉ skip →
      analysisFilter (search p) = .ok (f p)) :
    ∃ res, analysisResult moves skip search = .ok res ∧
      res.length = moves.length + 1 ∧
      ∀ p, p ≤ moves.length →
        (((res[p]?).getD none = some .skipped ↔ p ∈ skip) ∧
         (p ∉ skip → (res[p]?).getD none = some (.info (f p)))) := by
  have hmem : ∀ p, p ∈ (List.range (moves.length + 1)).reverse ↔
      p ≤ moves.length := by
    intro p
    rw [List.mem_reverse, List.mem_range]
    omega
  obtain ⟨res, hfold, hlen, hchar⟩ :=
    analysisFold_ok search skip f ((List.range (moves.length + 1)).reverse)
      (fun p hp hsk => hf p ((hmem p).mp hp) hsk)
      (List.replicate (moves.length + 1) none)
      (fun p hp => by
        rw [List.length_replicate]
        have := (hmem p).mp hp
        omega)
  refine ⟨res, hfold, by rw [hlen, List.length_replicate], ?_⟩
  intro p hp
  have hval : (res[p]?).getD none = entryFor skip f p := by
    rw [hchar p, if_pos ((hmem p).mpr hp)]
  constructor
  · constructor
    · intro hskipval
      by_contra hsk
      rw [hval] at hskipval
      unfold entryFor at hskipval
      rw [if_neg hsk] at hskipval
      exact absurd (Option.some.inj hskipval) (by simp)
    · intro hsk
      rw [hval]
      unfold entryFor
      rw [if_pos hsk]
  · intro hsk
    rw [hval]
    unfold entryFor
    rw [if_neg hsk]

/-- C1 applied to a concrete job: one move, ply 1 skipped, a clean search at
every other ply. -/
theorem C1_analysis_array_witness :
    (∀ p, p ≤ (["e2e4"] : List String).length → p ∉ ([1] : List Nat) →
      analysisFilter ((fun _ => [(some "score", PyVal.vscore ⟨"cp", 12, false, false⟩)]) p) =
        .ok ((fun _ => [(some "score", PyVal.vscore ⟨"cp", 12, false, false⟩)]) p)) ∧
    (∃ res, analysisResult ["e2e4"] [1]
        (fun _ => [(some "score", PyVal.vscore ⟨"cp", 12, false, false⟩)]) = .ok res ∧
      res.length = (["e2e4"] : List String).length + 1 ∧
      ∀ p, p ≤ (["e2e4"] : List String).length →
        (((res[p]?).getD none = some .skipped ↔ p ∈ ([1] : List Nat)) ∧
         (p ∉ ([1] : List Nat) → (res[p]?).getD none =
           some (.info ((fun _ => [(some "score", PyVal.vscore ⟨"cp", 12, false, false⟩)]) p))))) :=
  have hf : ∀ p, p ≤ (["e2e4"] : List String).length → p ∉ ([1] : List Nat) →
      analysisFilter ((fun _ => [(some "score", PyVal.vscore ⟨"cp", 12, false, false⟩)]) p) =
        .ok ((fun _ => [(some "score", PyVal.vscore ⟨"cp", 12, false, false⟩)]) p) :=
    fun p _ _ =>
      show analysisFilter [(some "score", PyVal.vscore ⟨"cp", 12, false, false⟩)] =
          .ok [(some "score", PyVal.vscore ⟨"cp", 12, false, false⟩)] by decide
  ⟨hf, C1_analysis_array ["e2e4"] [1] _ _ hf⟩

/-- The per-worker state relevant to the engine-died recovery path of
`Worker.run_inner`: the alive flag, the held job (by id) and the engine
subprocess (`some running?`, where `running?` embeds `poll() is None`;
`none` when no subprocess is held). -/
structure WS where
  alive : Bool
  job : Option String
  engine : Option Bool
  deriving DecidableEq, Repr

/-- Observable actions of the worker loop on the engine-died path. -/
inductive WAct where
  | drawBackoff
  | postAbort (id : String)
  | clearJob
  | sleepStep
  | killEngine
  | spawnEngine
  deriving DecidableEq, Repr

/-- Embeds `Worker.abort_job` (`fairyfishnet.py` lines 827-844): with no held
job it does nothing; otherwise it best-effort posts to `abort/<id>` and
clears the job. -/
def abort_job (s : WS) : WS × List WAct :=
  match s.job with
  | none => (s, [])
  | some id => ({ s with job := none }, [.postAbort id, .clearJob])

/-- Embeds `Worker.kill_stockfish`: kills and forgets the engine subprocess
when one is held (dead or alive — the Popen handle is truthy either way). -/
def kill_stockfish (s : WS) : WS × List WAct :=
  match s.engine with
  | none => (s, [])
  | some _ => ({ s with engine := none }, [.killEngine])

/-- Embeds the `except DEAD_ENGINE_ERRORS` handler of `Worker.run_inner`
(`fairyfishnet.py` lines 759-779): when alive, draw one backoff step; abort
the current job; when alive, sleep the drawn step and then kill the engine
subprocess. -/
def handleDeadEngine (s : WS) : WS × List WAct :=
  if s.alive then
    let s1 := abort_job s
    let s2 := kill_stockfish s1.1
    (s2.1, [WAct.drawBackoff] ++ s1.2 ++ [WAct.sleepStep] ++ s2.2)
  else
    let s1 := abort_job s
    (s1.1, s1.2)

/-- Embeds the spawn check of `Worker.start_stockfish`: an engine that is
held and still running is kept; otherwise a fresh one is spawned. -/
def start_stockfish (s : WS) : WS × List WAct :=
  match s.engine with
  | some true => (s, [])
  | _ => ({ s with engine := some true }, [.spawnEngine])

/-- C4 (counterexample): on the engine-died path the worker sleeps the
backoff step before killing the engine subprocess, not after as the claim
orders it: in the concrete recovery trace the sleep is at index 3 and the
kill at index 4. -/
theorem C4_counterexample :
    handleDeadEngine ⟨true, some "abc123", some true⟩ =
      (⟨true, none, none⟩,
       [.drawBackoff, .postAbort "abc123", .clearJob, .sleepStep, .killEngine]) ∧
    (handleDeadEngine ⟨true, some "abc123", some true⟩).2.indexOf WAct.sleepStep = 3 ∧
    (handleDeadEngine ⟨true, some "abc123", some true⟩).2.indexOf WAct.killEngine = 4 := by
  exact ⟨by decide, by decide, by decide⟩

/-- C4 (amended): on an engine-died error while the worker is alive and holds
a job, the worker draws one backoff step, best-effort posts `abort/<id>` and
clears the current job, sleeps the drawn backoff step, then kills the engine
subprocess; the next iteration's engine check spawns a fresh engine. -/
theorem C4_dead_engine_recovery (s : WS) (id : String) (b : Bool)
    (halive : s.alive = true) (hjob : s.job = some id) (heng : s.engine = some b) :
    handleDeadEngine s =
      ({ alive := true, job := none, engine := none },
       [.drawBackoff, .postAbort id, .clearJob, .sleepStep, .killEngine]) ∧
    start_stockfish (handleDeadEngine s).1 =
      ({ alive := true, job := none, engine := some true }, [.spawnEngine]) := by
  obtain ⟨a, j, e⟩ := s
  simp only at halive hjob heng
  subst halive
  subst hjob
  subst heng
  constructor
  · simp [handleDeadEngine, abort_job, kill_stockfish]
  · simp [handleDeadEngine, abort_job, kill_stockfish, start_stockfish]

/-- C4 amended, applied to a concrete alive worker holding job "j7" with a
running engine. -/
theorem C4_dead_engine_recovery_witness :
    ((⟨true, some "j7", some true⟩ : WS).alive = true ∧
     (⟨true, some "j7", some true⟩ : WS).job = some "j7" ∧
     (⟨true, some "j7", some true⟩ : WS).engine = some true) ∧
    (handleDeadEngine ⟨true, some "j7", some true⟩ =
      ({ alive := true, job := none, engine := none },
       [.drawBackoff, .postAbort "j7", .clearJob, .sleepStep, .killEngine]) ∧
     start_stockfish (handleDeadEngine ⟨true, some "j7", some true⟩).1 =
      ({ alive := true, job := none, engine := some true }, [.spawnEngine])) :=
  ⟨⟨rfl, rfl, rfl⟩,
   C4_dead_engine_recovery ⟨true, some "j7", some true⟩ "j7" true rfl rfl rfl⟩

/-- The process-level exceptions of the client that matter to response
classification and exit codes. -/
inductive WExc where
  | updateRequired
  | shutdown
  | shutdownSoon
  | configError
  | generic
  deriving DecidableEq, Repr

/-- Observable actions of the response-classification arm of
`Worker.run_inner`. -/
inductive LoopAct where
  | clearJob
  | setJob
  | resetBackoff
  | sleepBackoff (extra60 : Bool)
  deriving DecidableEq, Repr

/-- Embeds the response classification of `Worker.run_inner`
(`fairyfishnet.py` lines 792-824): the actions performed and the exception
raised, if any.  `errorField` is the evaluation of
`response.json()["error"]` (ValueError for a non-JSON body, KeyError for a
missing field); those two parse failures are caught and fall back to the
backoff path, while an update marker in the error text raises
update-required before the sleep. -/
def classifyResponse (status : Nat) (errorField : Except PyErr String) :
    List LoopAct × Option WExc :=
  if status = 204 then ([.clearJob, .sleepBackoff false], none)
  else if status = 202 then ([.setJob, .resetBackoff], none)
  else if 500 ≤ status ∧ status ≤ 599 then ([.clearJob, .sleepBackoff false], none)
  else if 400 ≤ status ∧ status ≤ 499 then
    match errorField with
    | .ok e =>
      if pyInStr "Please restart fishnet to upgrade." e then
        ([.clearJob], some .updateRequired)
      else ([.clearJob, .sleepBackoff (status = 429)], none)
    | .error .keyError => ([.clearJob, .sleepBackoff (status = 429)], none)
    | .error .valueError => ([.clearJob, .sleepBackoff (status = 429)], none)
    | .error _ => ([.clearJob], some .generic)
  else ([.clearJob, .sleepBackoff false], none)

/-- Embeds `Worker.run`: an exception raised by `run_inner` ends the loop and
is recorded in the worker's `fatal_error` slot; otherwise the loop
continues. -/
def workerFatalError (raised : Option WExc) : Option WExc :=
  match raised with
  | some e => some e
  | none => none

/-- Embeds the supervisor check in `cmd_run` (`fairyfishnet.py` lines
1815-1820, 1848-1854): a recorded worker fatal error is re-raised (and
re-raised again past the update-required logging). -/
def supervisorStep (fatal : Option WExc) : Except WExc Unit :=
  match fatal with
  | some e => .error e
  | none => .ok ()

/-- Embeds the exception-to-exit-code mapping of `main` (`fairyfishnet.py`
lines 2880-2893): update-required exits 70, configuration errors 78,
shutdown 0; an uncaught exception ends the interpreter with status 1. -/
def mainExitCode (outcome : Except WExc Nat) : Nat :=
  match outcome with
  | .ok n => n
  | .error .updateRequired => 70
  | .error .configError => 78
  | .error .shutdown => 0
  | .error .shutdownSoon => 0
  | .error .generic => 1

/-- The composition worker-loop → fatal-error slot → supervisor → `main` for
one classified response: the process exit code when the response ends the
worker, and 0 (the normal return of `cmd_run`) when the loop merely
continues. -/
def processExitCode (status : Nat) (errorField : Except PyErr String) : Nat :=
  match supervisorStep (workerFatalError (classifyResponse status errorField).2) with
  | .error e => mainExitCode (.error e)
  | .ok () => mainExitCode (.ok 0)

/-- C5: a 4xx response whose JSON error text contains the update marker makes
the worker raise update-required (recorded as its fatal error, ending the
worker loop); the supervisor re-raises it and the process exits with
status 70. -/
theorem C5_update_required (status : Nat) (e : String)
    (h4 : 400 ≤ status) (h4b : status ≤ 499)
    (hm : pyInStr "Please restart fishnet to upgrade." e = true) :
    (classifyResponse status (.ok e)).2 = some .updateRequired ∧
    workerFatalError (classifyResponse status (.ok e)).2 = some .updateRequired ∧
    supervisorStep (workerFatalError (classifyResponse status (.ok e)).2) =
      .error .updateRequired ∧
    processExitCode status (.ok e) = 70 := by
  have h204 : ¬ status = 204 := by omega
  have h202 : ¬ status = 202 := by omega
  have h5xx : ¬ (500 ≤ status ∧ status ≤ 599) := by omega
  have hcls : (classifyResponse status (.ok e)).2 = some .updateRequired := by
    unfold classifyResponse
    rw [if_neg h204, if_neg h202, if_neg h5xx, if_pos ⟨h4, h4b⟩]
    simp [hm]
  refine ⟨hcls, ?_, ?_, ?_⟩
  · rw [hcls]
    rfl
  · rw [hcls]
    rfl
  · unfold processExitCode
    rw [hcls]
    rfl

/-- C5 applied to the concrete 400 response carrying exactly the update
marker as its error text. -/
theorem C5_update_required_witness :
    (400 ≤ 400 ∧ 400 ≤ 499 ∧
      pyInStr "Please restart fishnet to upgrade."
        "Please restart fishnet to upgrade." = true) ∧
    processExitCode 400 (.ok "Please restart fishnet to upgrade.") = 70 :=
  ⟨⟨by decide, by decide, by decide⟩,
   (C5_update_required 400 "Please restart fishnet to upgrade."
     (by decide) (by decide) (by decide)).2.2.2⟩

/-- The backoff caps of `fairyfishnet.py` (MAX_BACKOFF, MAX_FIXED_BACKOFF),
as exact rationals. -/
def MAX_BACKOFF : ℚ := 30
def MAX_FIXED_BACKOFF : ℚ := 3

/-- Embeds the fixed-mode generator of `start_backoff`: each yielded delay is
`random.random() * MAX_FIXED_BACKOFF`, with `u` the stream of draws from
`random.random()` (each in `[0, 1)`). -/
def start_backoff_fixed (u : ℕ → ℚ) (n : ℕ) : ℚ :=
  u n * MAX_FIXED_BACKOFF

/-- The expanding-mode counter of `start_backoff`: starts at 1 and is capped
at MAX_BACKOFF after each yield (`backoff = min(backoff + 1, MAX_BACKOFF)`). -/
def backoffB : ℕ → ℚ
  | 0 => 1
  | n + 1 => min (backoffB n + 1) MAX_BACKOFF

/-- Embeds the expanding-mode generator of `start_backoff`: the n-th yielded
delay is `0.5 * backoff + 0.5 * backoff * random.random()`. -/
def start_backoff_expanding (u : ℕ → ℚ) (n : ℕ) : ℚ :=
  1/2 * backoffB n + 1/2 * backoffB n * u n

/-- The counter follows the capped linear schedule. -/
theorem backoffB_closed (n : ℕ) : backoffB n = min ((n : ℚ) + 1) MAX_BACKOFF := by
  induction n with
  | zero =>
    unfold backoffB MAX_BACKOFF
    norm_num
  | succ m ih =>
    rw [show backoffB (m + 1) = min (backoffB m + 1) MAX_BACKOFF from rfl, ih]
    unfold MAX_BACKOFF
    rcases le_total ((m : ℚ) + 1) 30 with h | h
    · rw [min_eq_left h]
      push_cast [Nat.cast_succ]
      ring_nf
    · rw [min_eq_right h, min_eq_right (by linarith),
        min_eq_right (by push_cast [Nat.cast_add]; linarith)]

/-- The counter stays within `[1, MAX_BACKOFF]` and is non-decreasing. -/
theorem backoffB_bounds (n : ℕ) :
    1 ≤ backoffB n ∧ backoffB n ≤ MAX_BACKOFF ∧ backoffB n ≤ backoffB (n + 1) := by
  rw [backoffB_closed n, backoffB_closed (n + 1)]
  unfold MAX_BACKOFF
  have hn : (0 : ℚ) ≤ (n : ℚ) := Nat.cast_nonneg n
  have hn2 : ((n : ℚ) + 1) ≤ ((n + 1 : ℕ) : ℚ) + 1 := by
    push_cast
    linarith
  exact ⟨le_min (by linarith) (by norm_num), min_le_right _ _,
    min_le_min hn2 le_rfl⟩

/-- C6: with every draw in `[0, 1)` (the range of `random.random()`), the
fixed-mode backoff yields only delays in `[0, 3.0]`; the expanding-mode
counter follows the capped schedule `min(n+1, 30)`, every expanding-mode
delay lies in `[0, 30]`, the mean of the n-th expanding delay over a uniform
draw equals `0.75 * b`, and that sequence of expected delays is
non-decreasing. -/
theorem C6_backoff_schedule (u : ℕ → ℚ) (hu : ∀ n, 0 ≤ u n ∧ u n < 1) :
    (∀ n, 0 ≤ start_backoff_fixed u n ∧ start_backoff_fixed u n ≤ 3) ∧
    (∀ n, backoffB n = min ((n : ℚ) + 1) 30) ∧
    (∀ n, 0 ≤ start_backoff_expanding u n ∧ start_backoff_expanding u n ≤ 30) ∧
    (∀ n, (∫ t in (0:ℝ)..1,
        (((1/2 * backoffB n : ℚ) : ℝ) + ((1/2 * backoffB n : ℚ) : ℝ) * t)) =
      (3/4 : ℝ) * ((backoffB n : ℚ) : ℝ)) ∧
    (∀ n, (∫ t in (0:ℝ)..1,
        (((1/2 * backoffB n : ℚ) : ℝ) + ((1/2 * backoffB n : ℚ) : ℝ) * t)) ≤
      (∫ t in (0:ℝ)..1,
        (((1/2 * backoffB (n+1) : ℚ) : ℝ) + ((1/2 * backoffB (n+1) : ℚ) : ℝ) * t))) := by
  have hmean : ∀ c : ℝ, (∫ t in (0:ℝ)..1, (c + c * t)) = (3/2 : ℝ) * c := by
    intro c
    have hint : IntervalIntegrable (fun t : ℝ => c * t) MeasureTheory.volume 0 1 := by
      apply Continuous.intervalIntegrable
      exact continuous_const.mul continuous_id
    rw [intervalIntegral.integral_add intervalIntegrable_const hint]
    rw [intervalIntegral.integral_const]
    rw [intervalIntegral.integral_const_mul]
    rw [integral_id]
    norm_num
    ring
  refine ⟨?_, backoffB_closed, ?_, ?_, ?_⟩
  · intro n
    obtain ⟨h0, h1⟩ := hu n
    unfold start_backoff_fixed MAX_FIXED_BACKOFF
    constructor
    · positivity
    · nlinarith
  · intro n
    obtain ⟨h0, h1⟩ := hu n
    obtain ⟨hb1, hb30, -⟩ := backoffB_bounds n
    unfold start_backoff_expanding
    unfold MAX_BACKOFF at hb30
    constructor
    · positivity
    · nlinarith
  · intro n
    rw [hmean]
    push_cast
    ring
  · intro n
    rw [hmean, hmean]
    obtain ⟨hb1, -, hmono⟩ := backoffB_bounds n
    have : ((1/2 * backoffB n : ℚ) : ℝ) ≤ ((1/2 * backoffB (n+1) : ℚ) : ℝ) := by
      exact_mod_cast by linarith
    linarith

/-- C6 applied to the all-zero draw stream. -/
theorem C6_backoff_schedule_witness :
    (∀ n, 0 ≤ (fun _ : ℕ => (0 : ℚ)) n ∧ (fun _ : ℕ => (0 : ℚ)) n < 1) ∧
    ((∀ n, 0 ≤ start_backoff_fixed (fun _ => 0) n ∧
        start_backoff_fixed (fun _ => 0) n ≤ 3) ∧
     (∀ n, backoffB n = min ((n : ℚ) + 1) 30) ∧
     (∀ n, 0 ≤ start_backoff_expanding (fun _ => 0) n ∧
        start_backoff_expanding (fun _ => 0) n ≤ 30) ∧
     (∀ n, (∫ t in (0:ℝ)..1,
         (((1/2 * backoffB n : ℚ) : ℝ) + ((1/2 * backoffB n : ℚ) : ℝ) * t)) =
       (3/4 : ℝ) * ((backoffB n : ℚ) : ℝ)) ∧
     (∀ n, (∫ t in (0:ℝ)..1,
         (((1/2 * backoffB n : ℚ) : ℝ) + ((1/2 * backoffB n : ℚ) : ℝ) * t)) ≤
       (∫ t in (0:ℝ)..1,
         (((1/2 * backoffB (n+1) : ℚ) : ℝ) + ((1/2 * backoffB (n+1) : ℚ) : ℝ) * t)))) :=
  have hu : ∀ n, 0 ≤ (fun _ : ℕ => (0 : ℚ)) n ∧ (fun _ : ℕ => (0 : ℚ)) n < 1 :=
    fun _ => ⟨le_refl 0, by norm_num⟩
  ⟨hu, C6_backoff_schedule (fun _ => 0) hu⟩

/-- Embeds the pool sizing of `cmd_run`: `instances = max(1, cores // threads)`
(`validate_threads` guarantees `1 <= threads <= cores`). -/
def instancesOf (cores threads : Nat) : Nat := max 1 (cores / threads)

/-- Embeds the bucket loop of `cmd_run` (`fairyfishnet.py` lines 1793-1795):
`buckets = [0] * instances`, then `buckets[i % instances] += 1` for each core
index `i` in `range(cores)`. -/
def mkBuckets (cores instances : Nat) : List Nat :=
  (List.range cores).foldl
    (fun b i => b.set (i % instances) ((b[i % instances]?).getD 0 + 1))
    (List.replicate instances 0)

/-- Embeds the per-worker memory share of `cmd_run`: each worker is built
with `memory // instances` as its hash allotment. -/
def workerHash (memory instances : Nat) : Nat := memory / instances

/-- Unfolding one step of the bucket loop. -/
theorem mkBuckets_succ (c n : Nat) :
    mkBuckets (c + 1) n =
      (mkBuckets c n).set (c % n) (((mkBuckets c n)[c % n]?).getD 0 + 1) := by
  unfold mkBuckets
  rw [List.range_succ, List.foldl_append]
  rfl

/-- The bucket list always has one slot per engine instance. -/
theorem mkBuckets_length (c n : Nat) : (mkBuckets c n).length = n := by
  induction c with
  | zero => simp [mkBuckets]
  | succ c ih => rw [mkBuckets_succ, List.length_set, ih]

/-- Division and modulus of a successor by a positive divisor. -/
theorem succ_div_mod (c n : Nat) (hn : 0 < n) :
    (c % n + 1 = n → (c + 1) / n = c / n + 1 ∧ (c + 1) % n = 0) ∧
    (c % n + 1 < n → (c + 1) / n = c / n ∧ (c + 1) % n = c % n + 1) := by
  have hdm := Nat.div_add_mod c n
  constructor
  · intro h
    have hc : c + 1 = n * (c / n + 1) := by
      rw [Nat.mul_add, Nat.mul_one]
      linarith
    constructor
    · rw [hc, Nat.mul_div_cancel_left _ hn]
    · rw [hc, Nat.mul_mod_right]
  · intro h
    have hc : c + 1 = (c % n + 1) + n * (c / n) := by linarith
    constructor
    · rw [hc, Nat.add_mul_div_left _ _ hn, Nat.div_eq_of_lt h, Nat.zero_add]
    · rw [hc, Nat.add_mul_mod_self_left, Nat.mod_eq_of_lt h]

/-- Round-robin distribution: bucket `i` receives `cores / n` cores, plus one
more when `i < cores % n`. -/
theorem mkBuckets_getElem (c n : Nat) (hn : 0 < n) :
    ∀ i, i < n → ((mkBuckets c n)[i]?).getD 0 =
      c / n + (if i < c % n then 1 else 0) := by
  induction c with
  | zero =>
    intro i hi
    simp [mkBuckets, List.getElem?_replicate, hi]
  | succ c ih =>
    intro i hi
    have hcn : c % n < n := Nat.mod_lt _ hn
    have hsucc := succ_div_mod c n hn
    rw [mkBuckets_succ]
    by_cases hieq : i = c % n
    · subst hieq
      rw [set_getElem?_self _ _ _ (by rw [mkBuckets_length]; exact hcn)]
      simp only [Option.getD_some]
      rw [ih _ hcn]
      rcases Nat.lt_or_ge (c % n + 1) n with hlt | hge
      · obtain ⟨hd, hm⟩ := hsucc.2 hlt
        rw [hd, hm]
        split_ifs <;> omega
      · have heq : c % n + 1 = n := by omega
        obtain ⟨hd, hm⟩ := hsucc.1 heq
        rw [hd, hm]
        split_ifs <;> omega
    · rw [set_getElem?_ne _ _ _ _ (fun he => hieq he.symm)]
      rw [ih _ hi]
      rcases Nat.lt_or_ge (c % n + 1) n with hlt | hge
      · obtain ⟨hd, hm⟩ := hsucc.2 hlt
        rw [hd, hm]
        split_ifs <;> omega
      · have heq : c % n + 1 = n := by omega
        obtain ⟨hd, hm⟩ := hsucc.1 heq
        rw [hd, hm]
        split_ifs <;> omega

/-- Incrementing one in-range element raises the sum by one. -/
theorem sum_set_getD_succ (l : List Nat) (i : Nat) (h : i < l.length) :
    (l.set i ((l[i]?).getD 0 + 1)).sum = l.sum + 1 := by
  induction l generalizing i with
  | nil => simp at h
  | cons x xs ih =>
    cases i with
    | zero => simp [Nat.add_assoc, Nat.add_comm, Nat.add_left_comm]
    | succ m =>
      have hm : m < xs.length := by simpa using h
      simp only [List.set_cons_succ, List.sum_cons, List.getElem?_cons_succ]
      rw [ih m hm]
      omega

/-- The buckets partition the cores: their sizes sum to `cores`. -/
theorem mkBuckets_sum (c n : Nat) (hn : 0 < n) : (mkBuckets c n).sum = c := by
  induction c with
  | zero => simp [mkBuckets]
  | succ c ih =>
    rw [mkBuckets_succ, sum_set_getD_succ _ _ (by rw [mkBuckets_length]; exact Nat.mod_lt _ hn), ih]

/-- C7 (counterexample): with 5 validated cores and 2 threads per engine the
pool has 2 workers and the bucket loop yields thread counts `[3, 2]`; the
second worker runs with 2 threads, not `ceil(5/2) = 3` as the claim states
for every worker. -/
theorem C7_counterexample :
    instancesOf 5 2 = 2 ∧
    mkBuckets 5 2 = [3, 2] ∧
    (5 + 2 - 1) / 2 = 3 ∧
    ¬ (∀ b ∈ mkBuckets 5 2, b = (5 + 2 - 1) / 2) := by
  refine ⟨by decide, by decide, by decide, by decide⟩

/-- C7 (amended): `cmd_run` sizes the pool as `max(1, cores // threads)`
workers, partitions the cores round-robin into one bucket per worker — so
bucket `i` holds `floor(cores/pool)` threads plus one more exactly when
`i < cores mod pool`, which is `ceil(cores/pool)` for the first
`cores mod pool` workers and `floor(cores/pool)` for the rest — the bucket
sizes sum to `cores`, and each worker reserves `Hash = memory // pool`. -/
theorem C7_worker_pool (cores threads memory : Nat) :
    (mkBuckets cores (instancesOf cores threads)).length =
      instancesOf cores threads ∧
    (mkBuckets cores (instancesOf cores threads)).sum = cores ∧
    (∀ i, i < instancesOf cores threads →
      ((mkBuckets cores (instancesOf cores threads))[i]?).getD 0 =
        cores / instancesOf cores threads +
          (if i < cores % instancesOf cores threads then 1 else 0)) ∧
    workerHash memory (instancesOf cores threads) =
      memory / instancesOf cores threads := by
  have hn : 0 < instancesOf cores threads := le_max_left 1 _
  exact ⟨mkBuckets_length _ _, mkBuckets_sum _ _ hn,
    mkBuckets_getElem _ _ hn, rfl⟩
